import Mathlib

/-!
# Verification of the synthio MIDI synth voice-allocation engine

Shallow embedding of `synthio_midi_synth.py` (a MIDI-controlled synth:
note-on builds a stack of detuned oscillator voices, note-off releases
them, control-change events steer modulation, oscillator count and
waveform selection).

Modelling choices:
* Python floats are modelled as exact rationals (`ℚ`); all the arithmetic
  in the engine is simple enough that binary64 evaluation and exact
  rational evaluation agree on every property stated here (the values
  compared to integers are bounded away from integers by at least
  `1/127` while the float error is around `1e-15`).
* `synthio.midi_to_hz` is an external library function, kept as a
  parameter `h : ℕ → ℚ` of the transition functions.
* `random.random()` is modelled by a jitter oracle `j : ℕ → ℚ` giving the
  per-oscillator draw of `random.random()/1000`; hypotheses bound it in
  `[0, 1/1000)` exactly as the library guarantees.
* The `synthio.Synthesizer` renderer is modelled by two append-only logs:
  `synth_pressed` records each voice group handed to `synth.press`, and
  `synth_released` each group handed to `synth.release`.
* The Python dict `notes_pressed` is modelled as an association list with
  the dict operations (`get`, item assignment, `del`) as functions on it.
-/

/-- `synthio.Envelope`: amplitude envelope parameters (all in seconds /
levels, modelled as exact rationals). -/
structure Envelope where
  attack_time : ℚ
  decay_time : ℚ
  release_time : ℚ
  attack_level : ℚ
  sustain_level : ℚ
deriving DecidableEq, Repr

/-- `synthio.Note`: one oscillator voice. `waveform` is the index of the
shared sample buffer in the `waveforms` bank (the Python object holds a
reference to `waveforms[wave_i]`; the bank is fixed, so the index
identifies the reference).  `bend_mode` is the constant
`synthio.BendMode.VIBRATO` on every voice and is omitted. -/
structure Voice where
  frequency : ℚ
  envelope : Envelope
  waveform : ℕ
  bend_depth : ℚ
  bend_rate : ℚ
deriving DecidableEq, Repr

/-- `len(waveforms)`: the bank holds saw, square, sine, dirty sine, noise. -/
def waveforms_len : ℕ := 5

/-- `max_oscs = 5`. -/
def max_oscs : ℕ := 5

/-- `osc_detune = 0.01`. -/
def osc_detune : ℚ := 1/100

/-- Python `int(x)` on a float: truncation toward zero, as an integer. -/
def pyInt (x : ℚ) : ℤ := if 0 ≤ x then ⌊x⌋ else -⌊-x⌋

/-- `dict.get(k, None)` on the association-list model of a Python dict. -/
def lookupA {α : Type} : List (ℕ × α) → ℕ → Option α
  | [], _ => none
  | (k', v') :: t, k => if k' = k then some v' else lookupA t k

/-- `d[k] = v` on the association-list model: replace in place, else append. -/
def insertA {α : Type} : List (ℕ × α) → ℕ → α → List (ℕ × α)
  | [], k, v => [(k, v)]
  | (k', v') :: t, k, v =>
      if k' = k then (k, v) :: t else (k', v') :: insertA t k v

/-- `del d[k]` on the association-list model: drop the entry for `k`. -/
def eraseA {α : Type} : List (ℕ × α) → ℕ → List (ℕ × α)
  | [], _ => []
  | (k', v') :: t, k => if k' = k then t else (k', v') :: eraseA t k

/-- Engine state: the module-level mutable globals of the script together
with the renderer handoff logs. -/
structure SynthState where
  wave_i : ℕ
  num_oscs : ℕ
  mod_val : ℚ
  notes_pressed : List (ℕ × List Voice)
  synth_pressed : List (List Voice)
  synth_released : List (List Voice)
deriving DecidableEq, Repr

/-- Initial module state: `wave_i = 0`, `num_oscs = 1`, `mod_val = 0`,
`notes_pressed = {}`, nothing yet handed to the renderer. -/
def initState : SynthState :=
  { wave_i := 0, num_oscs := 1, mod_val := 0,
    notes_pressed := [], synth_pressed := [], synth_released := [] }

/-- The `synthio.Envelope(...)` built at the top of `note_on`:
`attack_time = max(0, 2*(127-(vel*1.2))/127)`, `decay_time = 0.05`,
`release_time = 0.8`, `attack_level = 1`, `sustain_level = 0.8`. -/
def amp_env (vel : ℕ) : Envelope :=
  { attack_time := max 0 (2 * (127 - (vel : ℚ) * (6/5)) / 127),
    decay_time := 1/20, release_time := 4/5,
    attack_level := 1, sustain_level := 4/5 }

/-- The voice list built by the `for i in range(num_oscs)` loop of
`note_on`: voice `i` has frequency `f * (1 + osc_detune*i + jitter i)`
where `f = midi_to_hz(notenum)` and `jitter i` is that iteration's
`random.random()/1000`; every voice shares the single `amp_env` and the
waveform selected by `wave_i`, and is stamped with
`bend_depth = 0.5*mod_val`, `bend_rate = 20*mod_val`. -/
def mkVoices (h : ℕ → ℚ) (j : ℕ → ℚ) (notenum : ℕ) (vel : ℕ)
    (s : SynthState) : List Voice :=
  (List.range s.num_oscs).map fun i =>
    { frequency := h notenum * (1 + osc_detune * i + j i),
      envelope := amp_env vel,
      waveform := s.wave_i,
      bend_depth := 1/2 * s.mod_val,
      bend_rate := 20 * s.mod_val }

/-- `note_on(notenum, vel)`: build the voice list, store it in
`notes_pressed[notenum]` (overwriting any previous entry), and hand it to
`synth.press`. -/
def note_on (h : ℕ → ℚ) (j : ℕ → ℚ) (notenum : ℕ) (vel : ℕ)
    (s : SynthState) : SynthState :=
  let notes := mkVoices h j notenum vel s
  { s with notes_pressed := insertA s.notes_pressed notenum notes,
           synth_pressed := s.synth_pressed ++ [notes] }

/-- `note_off(notenum, vel)`: `notes_pressed.get(notenum, None)`; if the
result is truthy (`None` and `[]` are falsy), hand the voices to
`synth.release` and `del notes_pressed[notenum]`; `vel` is unused. -/
def note_off (notenum : ℕ) (_vel : ℕ) (s : SynthState) : SynthState :=
  match lookupA s.notes_pressed notenum with
  | none => s
  | some notes =>
      if notes = [] then s
      else
        { s with notes_pressed := eraseA s.notes_pressed notenum,
                 synth_released := s.synth_released ++ [notes] }

/-- The typed MIDI events delivered by `adafruit_midi`. -/
inductive MidiMsg : Type
  | NoteOn (note : ℕ) (velocity : ℕ)
  | NoteOff (note : ℕ) (velocity : ℕ)
  | ControlChange (control : ℕ) (value : ℕ)
deriving DecidableEq, Repr

/-- One iteration of the `while True` dispatch loop on a received
message: `NoteOn` with nonzero velocity → `note_on`; `NoteOff`, or
`NoteOn` with velocity 0 → `note_off`; `ControlChange` 1 sets `mod_val =
value/127` and rewrites `bend_depth`/`bend_rate` on every voice of every
entry of `notes_pressed`; 82 sets `num_oscs = int(1 + (value/127) *
max_oscs)`; 83 sets `wave_i = int((value/127) * (len(waveforms)-1))`;
other controllers are ignored. -/
def handle_msg (h : ℕ → ℚ) (j : ℕ → ℚ) (msg : MidiMsg)
    (s : SynthState) : SynthState :=
  match msg with
  | .NoteOn note vel =>
      if vel ≠ 0 then note_on h j note vel s else note_off note vel s
  | .NoteOff note vel => note_off note vel s
  | .ControlChange control value =>
      if control = 1 then
        let m : ℚ := (value : ℚ) / 127
        { s with mod_val := m,
                 notes_pressed := s.notes_pressed.map fun kv =>
                   (kv.1, kv.2.map fun n =>
                     { n with bend_depth := 1/2 * m, bend_rate := 20 * m }) }
      else if control = 82 then
        { s with num_oscs := (pyInt (1 + (value : ℚ) / 127 * max_oscs)).toNat }
      else if control = 83 then
        { s with wave_i :=
            (pyInt ((value : ℚ) / 127 * ((waveforms_len : ℚ) - 1))).toNat }
      else s

/-- A MIDI message whose data fields are in the 7-bit range `0..127`. -/
def ValidMsg : MidiMsg → Prop
  | .NoteOn note vel => note ≤ 127 ∧ vel ≤ 127
  | .NoteOff note vel => note ≤ 127 ∧ vel ≤ 127
  | .ControlChange control value => control ≤ 127 ∧ value ≤ 127

instance : DecidablePred ValidMsg := by
  intro m
  cases m <;> exact inferInstanceAs (Decidable (_ ∧ _))

/-- States reachable from the initial module state by processing valid
MIDI messages, each `note_on` drawing its jitter from `random.random()`
(so each draw lies in `[0, 1/1000)`). -/
inductive Reachable (h : ℕ → ℚ) : SynthState → Prop
  | init : Reachable h initState
  | step {s : SynthState} (j : ℕ → ℚ) (msg : MidiMsg) :
      Reachable h s → (∀ i, 0 ≤ j i ∧ j i < 1/1000) → ValidMsg msg →
      Reachable h (handle_msg h j msg s)

/-! ## Helper lemmas on the dict model and Python `int` -/

theorem lookupA_insertA_self {α : Type} (t : List (ℕ × α)) (k : ℕ) (v : α) :
    lookupA (insertA t k v) k = some v := by
  induction t with
  | nil => simp [insertA, lookupA]
  | cons p t ih =>
      obtain ⟨k', v'⟩ := p
      by_cases hk : k' = k
      · simp [insertA, hk, lookupA]
      · simp [insertA, hk, lookupA, ih]

theorem mem_insertA {α : Type} {p : ℕ × α} {t : List (ℕ × α)} {k : ℕ}
    {v : α} (hp : p ∈ insertA t k v) : p ∈ t ∨ p = (k, v) := by
  induction t with
  | nil => simpa [insertA] using hp
  | cons q t ih =>
      obtain ⟨k', v'⟩ := q
      by_cases hk : k' = k
      · simp only [insertA, if_pos hk, List.mem_cons] at hp
        rcases hp with hp | hp
        · right; exact hp
        · left; exact List.mem_cons_of_mem _ hp
      · simp only [insertA, if_neg hk, List.mem_cons] at hp
        rcases hp with hp | hp
        · left; exact hp ▸ List.mem_cons_self _ _
        · rcases ih hp with hh | hh
          · left; exact List.mem_cons_of_mem _ hh
          · right; exact hh

theorem mem_eraseA {α : Type} {p : ℕ × α} {t : List (ℕ × α)} {k : ℕ}
    (hp : p ∈ eraseA t k) : p ∈ t := by
  induction t with
  | nil => simp [eraseA] at hp
  | cons q t ih =>
      obtain ⟨k', v'⟩ := q
      by_cases hk : k' = k
      · simp only [eraseA, if_pos hk] at hp
        exact List.mem_cons_of_mem _ hp
      · simp only [eraseA, if_neg hk, List.mem_cons] at hp
        rcases hp with hp | hp
        · exact hp ▸ List.mem_cons_self _ _
        · exact List.mem_cons_of_mem _ (ih hp)

theorem pyInt_toNat_div_mul (v m : ℕ) :
    (pyInt ((v : ℚ) / 127 * m)).toNat = m * v / 127 := by
  have hx : (0 : ℚ) ≤ (v : ℚ) / 127 * m := by positivity
  rw [pyInt, if_pos hx, Int.floor_toNat]
  have h2 : (v : ℚ) / 127 * m = ((m * v : ℕ) : ℚ) / ((127 : ℕ) : ℚ) := by
    push_cast; ring
  rw [h2, Nat.floor_div_eq_div]

theorem pyInt_toNat_one_add_div_mul (v m : ℕ) :
    (pyInt (1 + (v : ℚ) / 127 * m)).toNat = 1 + m * v / 127 := by
  have hx0 : (0 : ℚ) ≤ (v : ℚ) / 127 * m := by positivity
  have hx : (0 : ℚ) ≤ 1 + (v : ℚ) / 127 * m := by linarith
  rw [pyInt, if_pos hx, Int.floor_toNat,
    show (1 : ℚ) + (v : ℚ) / 127 * m = (v : ℚ) / 127 * m + 1 from by ring,
    Nat.floor_add_one hx0]
  have h2 : (v : ℚ) / 127 * m = ((m * v : ℕ) : ℚ) / ((127 : ℕ) : ℚ) := by
    push_cast; ring
  rw [h2, Nat.floor_div_eq_div]
  omega

/-! ## C6: velocity-derived envelope -/

/-- C6: for velocities `v1 ≤ v2` (both in 0..127), the envelope has
`attack_time = max 0 (2*(127 - velocity*1.2)/127)` and the fixed
`decay_time = 0.05`, `release_time = 0.8`, `attack_level = 1.0`,
`sustain_level = 0.8`; the attack time is non-negative and non-increasing
in velocity. -/
theorem claim_C6_envelope (v1 v2 : ℕ) (h12 : v1 ≤ v2) (_h127 : v2 ≤ 127) :
    (amp_env v1).attack_time = max 0 (2 * (127 - (v1 : ℚ) * (6/5)) / 127) ∧
    (amp_env v1).decay_time = 1/20 ∧
    (amp_env v1).release_time = 4/5 ∧
    (amp_env v1).attack_level = 1 ∧
    (amp_env v1).sustain_level = 4/5 ∧
    0 ≤ (amp_env v1).attack_time ∧
    (amp_env v2).attack_time ≤ (amp_env v1).attack_time := by
  refine ⟨rfl, rfl, rfl, rfl, rfl, le_max_left _ _, ?_⟩
  have hc : (v1 : ℚ) ≤ (v2 : ℚ) := by exact_mod_cast h12
  exact max_le_max le_rfl (by linarith)

/-- Witness for C6 at velocities 10 and 20. -/
theorem claim_C6_envelope_witness :
    (amp_env 10).decay_time = 1/20 ∧
    0 ≤ (amp_env 10).attack_time ∧
    (amp_env 20).attack_time ≤ (amp_env 10).attack_time := by
  obtain ⟨-, h2, -, -, -, h6, h7⟩ :=
    claim_C6_envelope 10 20 (by norm_num) (by norm_num)
  exact ⟨h2, h6, h7⟩

/-! ## C9: NoteOn with velocity 0 is dispatched exactly like NoteOff -/

/-- C9: in every engine state, a `NoteOn(note, 0)` message and a
`NoteOff(note, vel)` message are dispatched to the same `note_off` path
and produce identical successor states. -/
theorem claim_C9_release_uniform (h j : ℕ → ℚ) (s : SynthState)
    (note vel : ℕ) :
    handle_msg h j (.NoteOn note 0) s = handle_msg h j (.NoteOff note vel) s := by
  have h0 : handle_msg h j (.NoteOn note 0) s = note_off note 0 s := by
    simp [handle_msg]
  rw [h0]
  rfl

/-! ## C2: oscillator-count control (controller 82) -/

/-- Controller 82 stores `num_oscs = int(1 + (value/127)*max_oscs)`,
which equals `1 + 5*value/127` in natural-number division. -/
theorem handle_cc82_num_oscs (h j : ℕ → ℚ) (s : SynthState) (v : ℕ) :
    (handle_msg h j (.ControlChange 82 v) s).num_oscs = 1 + 5 * v / 127 := by
  have hred : (handle_msg h j (.ControlChange 82 v) s).num_oscs
      = (pyInt (1 + (v : ℚ) / 127 * max_oscs)).toNat := rfl
  rw [hred, show ((max_oscs : ℚ)) = ((5 : ℕ) : ℚ) from by norm_num [max_oscs]]
  exact pyInt_toNat_one_add_div_mul v 5

/-- Modelled from the spec's words, for comparison with the code: the
spec's contract `setOscillatorCount(raw)` stores
`clamp(round(1 + (raw/127)*max_oscillators), 1, max_oscillators)`. -/
def spec_osc_count (raw : ℕ) : ℤ :=
  max 1 (min (max_oscs : ℤ) (round (1 + (raw : ℚ) / 127 * max_oscs)))

/-- C2 counterexample: at raw = 64 the code stores `num_oscs = 3`
(truncation of 3.519…) while the spec formula rounds to 4; at raw = 127
the code stores 6, outside the claimed range `1..max_oscillators = 5`. -/
theorem claim_C2_counterexample :
    (handle_msg (fun _ => 0) (fun _ => 0) (.ControlChange 82 64) initState).num_oscs
      = 3 ∧
    spec_osc_count 64 = 4 ∧
    (handle_msg (fun _ => 0) (fun _ => 0) (.ControlChange 82 127) initState).num_oscs
      = 6 ∧
    ¬ ((handle_msg (fun _ => 0) (fun _ => 0) (.ControlChange 82 127) initState).num_oscs
      ≤ max_oscs) := by
  rw [handle_cc82_num_oscs, handle_cc82_num_oscs]
  refine ⟨by norm_num, ?_, by norm_num, by norm_num [max_oscs]⟩
  rw [spec_osc_count, round_eq]
  norm_num [max_oscs]

/-- C2 (amended): for raw in 0..127, controller 82 stores
`num_oscs = int(1 + (raw/127)*max_oscs) = 1 + ⌊5*raw/127⌋` — truncation
with no clamping — so the stored count lies in `1..max_oscs+1 = 1..6`,
reaching 6 exactly at raw = 127. -/
theorem claim_C2_osc_count (h j : ℕ → ℚ) (s : SynthState) (v : ℕ)
    (hv : v ≤ 127) :
    (handle_msg h j (.ControlChange 82 v) s).num_oscs = 1 + 5 * v / 127 ∧
    1 ≤ (handle_msg h j (.ControlChange 82 v) s).num_oscs ∧
    (handle_msg h j (.ControlChange 82 v) s).num_oscs ≤ max_oscs + 1 ∧
    ((handle_msg h j (.ControlChange 82 v) s).num_oscs = max_oscs + 1 ↔ v = 127) := by
  rw [handle_cc82_num_oscs]
  refine ⟨rfl, by omega, ?_, ?_⟩ <;> simp only [max_oscs] <;> omega

/-- Witness for C2 (amended) at raw = 64. -/
theorem claim_C2_osc_count_witness :
    (handle_msg (fun _ => 0) (fun _ => 0) (.ControlChange 82 64) initState).num_oscs
      = 1 + 5 * 64 / 127 ∧
    1 ≤ (handle_msg (fun _ => 0) (fun _ => 0) (.ControlChange 82 64) initState).num_oscs := by
  obtain ⟨h1, h2, -, -⟩ :=
    claim_C2_osc_count (fun _ => 0) (fun _ => 0) initState 64 (by norm_num)
  exact ⟨h1, h2⟩

/-! ## C3: waveform-index control (controller 83) -/

/-- Controller 83 stores `wave_i = int((value/127)*(len(waveforms)-1))`,
which equals `4*value/127` in natural-number division. -/
theorem handle_cc83_wave_i (h j : ℕ → ℚ) (s : SynthState) (v : ℕ) :
    (handle_msg h j (.ControlChange 83 v) s).wave_i = 4 * v / 127 := by
  have hred : (handle_msg h j (.ControlChange 83 v) s).wave_i
      = (pyInt ((v : ℚ) / 127 * ((waveforms_len : ℚ) - 1))).toNat := rfl
  rw [hred,
    show ((waveforms_len : ℚ) - 1) = ((4 : ℕ) : ℚ) from by norm_num [waveforms_len]]
  exact pyInt_toNat_div_mul v 4

/-- Modelled from the spec's words, for comparison with the code: the
spec's contract `setWaveformIndex(raw)` stores
`round((raw/127) * (waveform_count - 1))` clamped to
`0..waveform_count-1`. -/
def spec_waveform_index (raw : ℕ) : ℤ :=
  max 0 (min ((waveforms_len : ℤ) - 1)
    (round ((raw : ℚ) / 127 * ((waveforms_len : ℚ) - 1))))

/-- C3 counterexample: at raw = 16 the code stores `wave_i = 0`
(truncation of (16/127)*4 ≈ 0.504) while the spec formula rounds it
to 1. -/
theorem claim_C3_counterexample :
    (handle_msg (fun _ => 0) (fun _ => 0) (.ControlChange 83 16) initState).wave_i
      = 0 ∧
    spec_waveform_index 16 = 1 := by
  rw [handle_cc83_wave_i]
  refine ⟨by norm_num, ?_⟩
  rw [spec_waveform_index, round_eq]
  norm_num [waveforms_len]

/-- C3 (amended): for raw in 0..127, controller 83 stores
`wave_i = int((raw/127)*(len(waveforms)-1)) = ⌊4*raw/127⌋` — truncation,
not rounding — which already lies in the valid range
`0..waveform_count-1` with no clamping. -/
theorem claim_C3_wave_index (h j : ℕ → ℚ) (s : SynthState) (v : ℕ)
    (hv : v ≤ 127) :
    (handle_msg h j (.ControlChange 83 v) s).wave_i = 4 * v / 127 ∧
    (handle_msg h j (.ControlChange 83 v) s).wave_i ≤ waveforms_len - 1 := by
  rw [handle_cc83_wave_i]
  refine ⟨rfl, ?_⟩
  simp only [waveforms_len]
  omega

/-- Witness for C3 (amended) at raw = 100. -/
theorem claim_C3_wave_index_witness :
    (handle_msg (fun _ => 0) (fun _ => 0) (.ControlChange 83 100) initState).wave_i
      = 4 * 100 / 127 ∧
    (handle_msg (fun _ => 0) (fun _ => 0) (.ControlChange 83 100) initState).wave_i
      ≤ waveforms_len - 1 :=
  claim_C3_wave_index (fun _ => 0) (fun _ => 0) initState 100 (by norm_num)

/-! ## C5: voices built by note_on -/

/-- C5: `note_on` tracks exactly `num_oscs` voices (the oscillator count
at call time) under the note number; voice `i` has frequency
`midi_to_hz(note) * (1 + osc_detune*i + jitter_i)` with the per-voice
jitter draw in `[0, 0.001]`; every voice carries the one envelope built
by `amp_env vel` (a single shared instance, built once before the
oscillator loop) and is stamped with `bend_depth = 0.5 * mod_val`,
`bend_rate = 20 * mod_val` for the modulation value at call time. -/
theorem claim_C5_note_on (h j : ℕ → ℚ) (s : SynthState) (notenum vel i : ℕ)
    (hj : ∀ k, 0 ≤ j k ∧ j k < 1/1000)
    (hi : i < (mkVoices h j notenum vel s).length) :
    lookupA (note_on h j notenum vel s).notes_pressed notenum
      = some (mkVoices h j notenum vel s) ∧
    (mkVoices h j notenum vel s).length = s.num_oscs ∧
    0 ≤ j i ∧ j i ≤ 1/1000 ∧
    (mkVoices h j notenum vel s).get ⟨i, hi⟩ =
      { frequency := h notenum * (1 + osc_detune * i + j i),
        envelope := amp_env vel,
        waveform := s.wave_i,
        bend_depth := 1/2 * s.mod_val,
        bend_rate := 20 * s.mod_val } := by
  refine ⟨lookupA_insertA_self _ _ _, by simp [mkVoices], (hj i).1,
    le_of_lt ((hj i).2.trans_le (by norm_num)), ?_⟩
  simp [mkVoices, List.get_eq_getElem]

/-- Bound used to index the single voice of the witness run for C5. -/
theorem mkVoices_init_len_pos :
    0 < (mkVoices (fun _ => 440) (fun _ => 0) 60 64 initState).length := by
  simp [mkVoices, initState]

/-- Witness for C5: one voice at 440 Hz with zero jitter. -/
theorem claim_C5_note_on_witness :
    lookupA (note_on (fun _ => 440) (fun _ => 0) 60 64 initState).notes_pressed 60
      = some (mkVoices (fun _ => 440) (fun _ => 0) 60 64 initState) ∧
    ((mkVoices (fun _ => 440) (fun _ => 0) 60 64 initState).get
        ⟨0, mkVoices_init_len_pos⟩).frequency = 440 * (1 + osc_detune * 0 + 0) := by
  obtain ⟨h1, -, -, -, h5⟩ :=
    claim_C5_note_on (fun _ => 440) (fun _ => 0) initState 60 64 0
      (fun k => by norm_num) mkVoices_init_len_pos
  refine ⟨h1, ?_⟩
  rw [h5]
  norm_num

/-! ## C4: mod-wheel broadcast (controller 1) -/

/-- Controller 1 rewrites the vibrato fields of every tracked voice. -/
theorem handle_cc1_table (h j : ℕ → ℚ) (v : ℕ) (s : SynthState) :
    (handle_msg h j (.ControlChange 1 v) s).notes_pressed
      = s.notes_pressed.map fun kv =>
          (kv.1, kv.2.map fun n =>
            { n with bend_depth := 1/2 * ((v : ℚ) / 127),
                     bend_rate := 20 * ((v : ℚ) / 127) }) := rfl

/-- C4: controller 1 stores `mod_val = value/127` and immediately
rewrites `bend_depth`/`bend_rate` on every voice of every entry of
`notes_pressed` with `0.5 * mod_val` and `20 * mod_val` — the same
scaling used at allocation — so a voice `n2` of a note allocated after
the call carries exactly the same vibrato values. -/
theorem claim_C4_set_modulation (h j : ℕ → ℚ) (s : SynthState)
    (v notenum vel : ℕ) (kv : ℕ × List Voice) (n n2 : Voice)
    (hkv : kv ∈ (handle_msg h j (.ControlChange 1 v) s).notes_pressed)
    (hn : n ∈ kv.2)
    (hn2 : n2 ∈ mkVoices h j notenum vel (handle_msg h j (.ControlChange 1 v) s)) :
    (handle_msg h j (.ControlChange 1 v) s).mod_val = (v : ℚ) / 127 ∧
    n.bend_depth = 1/2 * ((v : ℚ) / 127) ∧
    n.bend_rate = 20 * ((v : ℚ) / 127) ∧
    n2.bend_depth = 1/2 * ((v : ℚ) / 127) ∧
    n2.bend_rate = 20 * ((v : ℚ) / 127) := by
  rw [handle_cc1_table, List.mem_map] at hkv
  obtain ⟨kv0, -, rfl⟩ := hkv
  simp only [List.mem_map] at hn
  obtain ⟨n0, -, rfl⟩ := hn
  simp only [mkVoices, List.mem_map] at hn2
  obtain ⟨i, -, rfl⟩ := hn2
  exact ⟨rfl, rfl, rfl, rfl, rfl⟩

/-- A concrete one-oscillator voice used by several witnesses. -/
def witnessVoice : Voice :=
  { frequency := 440, envelope := amp_env 64, waveform := 0,
    bend_depth := 0, bend_rate := 0 }

/-- A concrete engine state holding one tracked note. -/
def witnessState : SynthState :=
  { wave_i := 0, num_oscs := 1, mod_val := 0,
    notes_pressed := [(60, [witnessVoice])],
    synth_pressed := [[witnessVoice]], synth_released := [] }

/-- Bound used to pick a voice of a note allocated after the C4 call. -/
theorem c4_witness_len_pos :
    0 < (mkVoices (fun _ => 0) (fun _ => 0) 62 64
      (handle_msg (fun _ => 0) (fun _ => 0) (.ControlChange 1 64) witnessState)).length := by
  simp [mkVoices, handle_msg, witnessState]

/-- Witness for C4: after `ControlChange 1 64` on the one-note state, the
stored modulation is 64/127 and the tracked voice's vibrato was rewritten. -/
theorem claim_C4_set_modulation_witness :
    (handle_msg (fun _ => 0) (fun _ => 0) (.ControlChange 1 64) witnessState).mod_val
      = (64 : ℚ) / 127 ∧
    Voice.bend_depth
      { witnessVoice with
          bend_depth := 1/2 * ((64 : ℚ) / 127),
          bend_rate := 20 * ((64 : ℚ) / 127) } = 1/2 * ((64 : ℚ) / 127) := by
  have hkv : ((60 : ℕ),
      [{ witnessVoice with
          bend_depth := 1/2 * ((64 : ℚ) / 127),
          bend_rate := 20 * ((64 : ℚ) / 127) }]) ∈
      (handle_msg (fun _ => 0) (fun _ => 0) (.ControlChange 1 64) witnessState).notes_pressed := by
    rw [handle_cc1_table]
    simp [witnessState]
  obtain ⟨h1, h2, -, -, -⟩ :=
    claim_C4_set_modulation (fun _ => 0) (fun _ => 0) witnessState 64 62 64 _
      { witnessVoice with
          bend_depth := 1/2 * ((64 : ℚ) / 127),
          bend_rate := 20 * ((64 : ℚ) / 127) }
      ((mkVoices (fun _ => 0) (fun _ => 0) 62 64
          (handle_msg (fun _ => 0) (fun _ => 0) (.ControlChange 1 64) witnessState)).get
        ⟨0, c4_witness_len_pos⟩)
      hkv (List.mem_singleton.mpr rfl) (List.get_mem _ _ _)
  exact ⟨h1, h2⟩

/-! ## C7: oscillator count and waveform index are prospective-only -/

/-- A control-change message on controller 82 or 83 (oscillator count /
waveform index). -/
def wave_osc_cc : MidiMsg → Prop
  | .ControlChange control _ => control = 82 ∨ control = 83
  | _ => False

/-- Controllers 82 and 83 do not touch `notes_pressed`. -/
theorem wave_osc_cc_keeps_table (h j : ℕ → ℚ) (m : MidiMsg)
    (hm : wave_osc_cc m) (s : SynthState) :
    (handle_msg h j m s).notes_pressed = s.notes_pressed := by
  cases m with
  | NoteOn note vel => exact absurd hm id
  | NoteOff note vel => exact absurd hm id
  | ControlChange control value =>
      rcases hm with hm | hm <;> subst hm <;> rfl

/-- Any sequence of controller-82/83 messages leaves `notes_pressed`
untouched. -/
theorem foldl_wave_osc_cc_keeps_table (h j : ℕ → ℚ) (msgs : List MidiMsg) :
    ∀ s : SynthState, (∀ m ∈ msgs, wave_osc_cc m) →
      (msgs.foldl (fun st m => handle_msg h j m st) s).notes_pressed
        = s.notes_pressed := by
  induction msgs with
  | nil => intro s _; rfl
  | cons m ms ih =>
      intro s hm
      simp only [List.foldl_cons]
      rw [ih (handle_msg h j m s) fun m' hm' => hm m' (List.mem_cons_of_mem _ hm'),
        wave_osc_cc_keeps_table h j m (hm m (List.mem_cons_self _ _)) s]

/-- C7: after any sequence of controller-82/83 messages, every tracked
Note still holds exactly its original voice list (hence its original
voice count and waveform reference), while a note-on issued after the
sequence observes the sequence's final oscillator count and waveform
index. -/
theorem claim_C7_prospective_only (h j : ℕ → ℚ) (s : SynthState)
    (msgs : List MidiMsg) (notenum vel : ℕ) (n : Voice)
    (hm : ∀ m ∈ msgs, wave_osc_cc m)
    (hn : n ∈ mkVoices h j notenum vel
      (msgs.foldl (fun st m => handle_msg h j m st) s)) :
    (msgs.foldl (fun st m => handle_msg h j m st) s).notes_pressed
        = s.notes_pressed ∧
    (mkVoices h j notenum vel
        (msgs.foldl (fun st m => handle_msg h j m st) s)).length
      = (msgs.foldl (fun st m => handle_msg h j m st) s).num_oscs ∧
    n.waveform = (msgs.foldl (fun st m => handle_msg h j m st) s).wave_i := by
  refine ⟨foldl_wave_osc_cc_keeps_table h j msgs s hm, by simp [mkVoices], ?_⟩
  simp only [mkVoices, List.mem_map] at hn
  obtain ⟨i, -, rfl⟩ := hn
  rfl

/-- Length bound for the C7 witness: after `ControlChange 82 127` the
next note-on builds a non-empty voice list. -/
theorem c7_witness_len_pos :
    0 < (mkVoices (fun _ => 0) (fun _ => 0) 62 64
      ([MidiMsg.ControlChange 82 127].foldl
        (fun st m => handle_msg (fun _ => 0) (fun _ => 0) m st) witnessState)).length := by
  simp only [List.foldl_cons, List.foldl_nil, mkVoices, List.length_map,
    List.length_range]
  rw [handle_cc82_num_oscs]
  norm_num

/-- Witness for C7: one controller-82 message leaves the one-note
table untouched. -/
theorem claim_C7_prospective_only_witness :
    ([MidiMsg.ControlChange 82 127].foldl
        (fun st m => handle_msg (fun _ => 0) (fun _ => 0) m st)
        witnessState).notes_pressed = witnessState.notes_pressed ∧
    (mkVoices (fun _ => 0) (fun _ => 0) 62 64
        ([MidiMsg.ControlChange 82 127].foldl
          (fun st m => handle_msg (fun _ => 0) (fun _ => 0) m st)
          witnessState)).length
      = ([MidiMsg.ControlChange 82 127].foldl
          (fun st m => handle_msg (fun _ => 0) (fun _ => 0) m st)
          witnessState).num_oscs := by
  obtain ⟨h1, h2, -⟩ :=
    claim_C7_prospective_only (fun _ => 0) (fun _ => 0) witnessState
      [MidiMsg.ControlChange 82 127] 62 64 _
      (by intro m hm; rw [List.mem_singleton] at hm; subst hm; exact Or.inl rfl)
      (List.get_mem _ 0 c7_witness_len_pos)
  exact ⟨h1, h2⟩

/-! ## C1: note_on on an already-held note leaks the old voices -/

/-- C1 (code bug, concrete run): from the initial state,
`note_on(60, 64)` followed by `note_on(60, 64)` again (distinct jitter
draws).  Afterwards the table does hold exactly one Note for key 60 —
the second voice group — but the first group, which was handed to
`synth.press`, was never handed to `synth.release`: `synth_released` is
empty, so the old voices are still pressed in the renderer, with no
reference left through which they could ever be released.  This
contradicts the spec, which requires the previous Note's voices to be
released before the new Note is inserted. -/
theorem claim_C1_retrigger_leak :
    (note_on (fun _ => 440) (fun _ => 1/2000) 60 64
        (note_on (fun _ => 440) (fun _ => 0) 60 64 initState)).notes_pressed
      = [(60, mkVoices (fun _ => 440) (fun _ => 1/2000) 60 64
            (note_on (fun _ => 440) (fun _ => 0) 60 64 initState))] ∧
    (note_on (fun _ => 440) (fun _ => 1/2000) 60 64
        (note_on (fun _ => 440) (fun _ => 0) 60 64 initState)).synth_pressed
      = [mkVoices (fun _ => 440) (fun _ => 0) 60 64 initState,
         mkVoices (fun _ => 440) (fun _ => 1/2000) 60 64
           (note_on (fun _ => 440) (fun _ => 0) 60 64 initState)] ∧
    (note_on (fun _ => 440) (fun _ => 1/2000) 60 64
        (note_on (fun _ => 440) (fun _ => 0) 60 64 initState)).synth_released
      = [] ∧
    mkVoices (fun _ => 440) (fun _ => 0) 60 64 initState
      ≠ mkVoices (fun _ => 440) (fun _ => 1/2000) 60 64
          (note_on (fun _ => 440) (fun _ => 0) 60 64 initState) := by
  refine ⟨rfl, rfl, rfl, ?_⟩
  intro hcontra
  have hL : mkVoices (fun _ => 440) (fun _ => 0) 60 64 initState
      = [{ frequency := 440 * (1 + osc_detune * ((0 : ℕ) : ℚ) + 0),
           envelope := amp_env 64, waveform := 0,
           bend_depth := 1/2 * 0, bend_rate := 20 * 0 }] := rfl
  have hR : mkVoices (fun _ => 440) (fun _ => 1/2000) 60 64
        (note_on (fun _ => 440) (fun _ => 0) 60 64 initState)
      = [{ frequency := 440 * (1 + osc_detune * ((0 : ℕ) : ℚ) + 1/2000),
           envelope := amp_env 64, waveform := 0,
           bend_depth := 1/2 * 0, bend_rate := 20 * 0 }] := rfl
  rw [hL, hR] at hcontra
  norm_num [osc_detune, Voice.mk.injEq] at hcontra

/-! ## Reachability invariant shared by C8 and C10 -/

/-- A successful `dict.get` returns an entry of the dict. -/
theorem lookupA_mem {α : Type} {t : List (ℕ × α)} {k : ℕ} {v : α}
    (hl : lookupA t k = some v) : (k, v) ∈ t := by
  induction t with
  | nil => simp [lookupA] at hl
  | cons p t ih =>
      obtain ⟨k', v'⟩ := p
      by_cases hk : k' = k
      · subst hk
        rw [lookupA, if_pos rfl] at hl
        injection hl with hl
        subst hl
        exact List.mem_cons_self _ _
      · rw [lookupA, if_neg hk] at hl
        exact List.mem_cons_of_mem _ (ih hl)

/-- `note_off` either is the identity (no tracked entry, or an empty
voice list) or removes the non-empty tracked entry and hands its voices
to `synth.release`. -/
theorem note_off_cases (notenum vel : ℕ) (s : SynthState) :
    note_off notenum vel s = s ∨
    ∃ ns, lookupA s.notes_pressed notenum = some ns ∧ ns ≠ [] ∧
      note_off notenum vel s =
        { s with notes_pressed := eraseA s.notes_pressed notenum,
                 synth_released := s.synth_released ++ [ns] } := by
  unfold note_off
  cases hl : lookupA s.notes_pressed notenum with
  | none => exact Or.inl rfl
  | some ns =>
      by_cases hne : ns = []
      · exact Or.inl (if_pos hne)
      · exact Or.inr ⟨ns, rfl, hne, if_neg hne⟩

/-- The engine invariant maintained by the dispatch loop: at least one
oscillator per note-on, modulation in `[0, 1]`, and every tracked voice
group non-empty with vibrato depth in `[0, 1/2]` and rate in `[0, 20]`. -/
def EngineInv (s : SynthState) : Prop :=
  1 ≤ s.num_oscs ∧ 0 ≤ s.mod_val ∧ s.mod_val ≤ 1 ∧
  ∀ kv ∈ s.notes_pressed, kv.2 ≠ [] ∧
    ∀ n ∈ kv.2, 0 ≤ n.bend_depth ∧ n.bend_depth ≤ 1/2 ∧
      0 ≤ n.bend_rate ∧ n.bend_rate ≤ 20

theorem engineInv_init : EngineInv initState := by
  refine ⟨le_refl 1, le_refl 0, by norm_num [initState], ?_⟩
  intro kv hkv
  simp [initState] at hkv

theorem engineInv_note_on (h j : ℕ → ℚ) (notenum vel : ℕ) (s : SynthState)
    (hs : EngineInv s) : EngineInv (note_on h j notenum vel s) := by
  obtain ⟨hN, hM0, hM1, hT⟩ := hs
  refine ⟨hN, hM0, hM1, ?_⟩
  intro kv hkv
  rcases mem_insertA hkv with hold | hnew
  · exact hT kv hold
  · subst hnew
    constructor
    · intro hemp
      simp only [mkVoices, List.map_eq_nil_iff, List.range_eq_nil] at hemp
      omega
    · intro n hn
      simp only [mkVoices, List.mem_map] at hn
      obtain ⟨i, -, rfl⟩ := hn
      refine ⟨by positivity, by linarith, by positivity, by linarith⟩

theorem engineInv_note_off (notenum vel : ℕ) (s : SynthState)
    (hs : EngineInv s) : EngineInv (note_off notenum vel s) := by
  rcases note_off_cases notenum vel s with heq | ⟨ns, -, -, heq⟩
  · rw [heq]; exact hs
  · rw [heq]
    obtain ⟨hN, hM0, hM1, hT⟩ := hs
    exact ⟨hN, hM0, hM1, fun kv hkv => hT kv (mem_eraseA hkv)⟩

theorem engineInv_handle (h j : ℕ → ℚ) (msg : MidiMsg) (s : SynthState)
    (hvalid : ValidMsg msg) (hs : EngineInv s) :
    EngineInv (handle_msg h j msg s) := by
  cases msg with
  | NoteOn note vel =>
      by_cases hv : vel ≠ 0
      · rw [show handle_msg h j (.NoteOn note vel) s = note_on h j note vel s
            from by simp [handle_msg, hv]]
        exact engineInv_note_on h j note vel s hs
      · rw [show handle_msg h j (.NoteOn note vel) s = note_off note vel s
            from by simp [handle_msg, hv]]
        exact engineInv_note_off note vel s hs
  | NoteOff note vel => exact engineInv_note_off note vel s hs
  | ControlChange control value =>
      obtain ⟨hN, hM0, hM1, hT⟩ := hs
      by_cases hc1 : control = 1
      · subst hc1
        have hv0 : (0 : ℚ) ≤ (value : ℚ) / 127 := by positivity
        have hv1 : ((value : ℚ)) / 127 ≤ 1 := by
          rw [div_le_one (by norm_num)]
          exact_mod_cast hvalid.2
        refine ⟨hN, hv0, hv1, ?_⟩
        intro kv hkv
        rw [handle_cc1_table, List.mem_map] at hkv
        obtain ⟨kv0, hkv0, rfl⟩ := hkv
        constructor
        · simpa [List.map_eq_nil_iff] using (hT kv0 hkv0).1
        · intro n hn
          simp only [List.mem_map] at hn
          obtain ⟨n0, -, rfl⟩ := hn
          refine ⟨by positivity, by linarith, by positivity, by linarith⟩
      · by_cases hc82 : control = 82
        · subst hc82
          refine ⟨?_, hM0, hM1, hT⟩
          rw [handle_cc82_num_oscs]
          omega
        · by_cases hc83 : control = 83
          · subst hc83
            exact ⟨hN, hM0, hM1, hT⟩
          · rw [show handle_msg h j (.ControlChange control value) s = s
                from by simp [handle_msg, hc1, hc82, hc83]]
            exact ⟨hN, hM0, hM1, hT⟩

/-- Every reachable engine state satisfies the engine invariant. -/
theorem reachable_EngineInv (h : ℕ → ℚ) (s : SynthState)
    (hs : Reachable h s) : EngineInv s := by
  induction hs with
  | init => exact engineInv_init
  | step j msg hr hj hvalid ih => exact engineInv_handle h j msg _ hvalid ih

/-! ## C8: note_off is a no-op for untracked notes -/

/-- C8: in every reachable state, `note_off(N)` with no tracked Note for
`N` leaves the state unchanged (idempotent no-op, no error path exists);
with a tracked Note it removes the entry from `notes_pressed` and hands
exactly its voices to `synth.release`. -/
theorem claim_C8_note_off (h : ℕ → ℚ) (s : SynthState) (hs : Reachable h s)
    (notenum vel : ℕ) :
    (lookupA s.notes_pressed notenum = none → note_off notenum vel s = s) ∧
    ∀ ns, lookupA s.notes_pressed notenum = some ns →
      note_off notenum vel s =
        { s with notes_pressed := eraseA s.notes_pressed notenum,
                 synth_released := s.synth_released ++ [ns] } := by
  constructor
  · intro hl
    unfold note_off
    rw [hl]
  · intro ns hl
    have hne : ns ≠ [] :=
      ((reachable_EngineInv h s hs).2.2.2 (notenum, ns) (lookupA_mem hl)).1
    unfold note_off
    rw [hl]
    exact if_neg hne

/-- The state reached from the initial state by a single `NoteOn 60 64`
message, used by the C8 and C10 witnesses. -/
def oneNoteState : SynthState :=
  handle_msg (fun _ => 0) (fun _ => 0) (.NoteOn 60 64) initState

/-- `oneNoteState` is reachable. -/
theorem oneNoteState_reachable : Reachable (fun _ => 0) oneNoteState :=
  Reachable.step (fun _ => 0) (.NoteOn 60 64) Reachable.init
    (fun _ => by norm_num) ⟨by norm_num, by norm_num⟩

/-- Witness for C8: a stray `note_off(61)` on the one-note reachable
state is a no-op, and `note_off(60)` removes the note and releases
exactly its voices. -/
theorem claim_C8_note_off_witness :
    note_off 61 0 oneNoteState = oneNoteState ∧
    note_off 60 0 oneNoteState =
      { oneNoteState with
          notes_pressed := eraseA oneNoteState.notes_pressed 60,
          synth_released := oneNoteState.synth_released
            ++ [mkVoices (fun _ => 0) (fun _ => 0) 60 64 initState] } := by
  obtain ⟨hnone, -⟩ :=
    claim_C8_note_off (fun _ => 0) oneNoteState oneNoteState_reachable 61 0
  obtain ⟨-, hsome⟩ :=
    claim_C8_note_off (fun _ => 0) oneNoteState oneNoteState_reachable 60 0
  exact ⟨hnone rfl, hsome (mkVoices (fun _ => 0) (fun _ => 0) 60 64 initState) rfl⟩

/-! ## C10: reachable-state bounds on modulation and vibrato -/

/-- C10: in every state reachable by valid MIDI traffic, `mod_val` lies
in `[0, 1]` and every voice of every tracked note has
`bend_depth ∈ [0, 1/2]` and `bend_rate ∈ [0, 20]` — both as stamped at
creation and after any number of mod-wheel updates. -/
theorem claim_C10_vibrato_bounds (h : ℕ → ℚ) (s : SynthState)
    (hs : Reachable h s) (kv : ℕ × List Voice) (n : Voice)
    (hkv : kv ∈ s.notes_pressed) (hn : n ∈ kv.2) :
    0 ≤ s.mod_val ∧ s.mod_val ≤ 1 ∧
    0 ≤ n.bend_depth ∧ n.bend_depth ≤ 1/2 ∧
    0 ≤ n.bend_rate ∧ n.bend_rate ≤ 20 := by
  obtain ⟨-, hM0, hM1, hT⟩ := reachable_EngineInv h s hs
  obtain ⟨-, hV⟩ := hT kv hkv
  obtain ⟨h1, h2, h3, h4⟩ := hV n hn
  exact ⟨hM0, hM1, h1, h2, h3, h4⟩

/-- Length bound for the C10 witness voice. -/
theorem c10_witness_len_pos :
    0 < (mkVoices (fun _ => 0) (fun _ => 0) 60 64 initState).length := by
  simp [mkVoices, initState]

/-- Witness for C10 on the one-note reachable state. -/
theorem claim_C10_vibrato_bounds_witness :
    0 ≤ oneNoteState.mod_val ∧ oneNoteState.mod_val ≤ 1 := by
  obtain ⟨h1, h2, -, -, -, -⟩ :=
    claim_C10_vibrato_bounds (fun _ => 0) oneNoteState oneNoteState_reachable
      (60, mkVoices (fun _ => 0) (fun _ => 0) 60 64 initState)
      ((mkVoices (fun _ => 0) (fun _ => 0) 60 64 initState).get
        ⟨0, c10_witness_len_pos⟩)
      (List.mem_singleton.mpr rfl)
      (List.get_mem _ 0 c10_witness_len_pos)
  exact ⟨h1, h2⟩
